import Mathlib

/-!
Verification of the Fruit Monitor service core (`src/main.py`).

We shallowly embed the pieces of the program the specification talks about:

* the process-wide sensor state `SENSOR_DATA` and the `update_sensors`
  handler (sequential `float(...)` parsing with in-place assignment);
* the inventory reconciliation logic of `process_image` (the loop over
  `current_counts`, then the sweep deleting types absent from the cycle);
* the freshness model `environment_factor_q10` / `estimate_rsl`;
* the near-spoilage scan of `process_image` (`if rsl <= 6`).

Python dicts are modelled as association lists on `String` keys, which keeps
the insertion-order iteration semantics the alerts depend on.  Unix
timestamps are `ℤ`; detection counts are `ℕ`; floating point values are `ℝ`
(sensor values, which are only moved around and never computed with, are
kept as `ℚ` so that concrete instances can be decided).
-/

namespace FruitMonitor

/-! ## Sensor state and the `update_sensors` handler -/

/-- A JSON value supplied for one sensor field: either something `float()`
accepts (modelled by its numeric value) or something on which `float()`
raises `TypeError`/`ValueError`. -/
inductive JsonNum where
  | num (x : ℚ)
  | nonNumeric
  deriving DecidableEq, Repr

/-- The request body of `POST /update-sensors`: each field may be absent
(`data.get` then falls back to the current `SENSOR_DATA` entry). -/
structure SensorPayload where
  temperature : Option JsonNum
  humidity : Option JsonNum
  ethylene_ppm : Option JsonNum
  deriving DecidableEq, Repr

/-- The process-wide mutable `SENSOR_DATA` dict of `main.py`. -/
structure SensorData where
  temperature : ℚ
  humidity : ℚ
  ethylene_ppm : ℚ
  deriving DecidableEq, Repr

/-- The initial value of `SENSOR_DATA` in `main.py`. -/
def SENSOR_DATA_init : SensorData := { temperature := 4, humidity := 85, ethylene_ppm := 0 }

/-- Outcome reported to the HTTP caller by `update_sensors`:
`ok` = 200 `{"status": "sensor data updated"}`,
`error` = 400 `{"error": "invalid sensor values"}`. -/
inductive UpdateResult where
  | ok
  | error
  deriving DecidableEq, Repr

/-- `float(data.get(key, current))`: a missing key falls back to the current
(numeric) value, a supplied numeric value parses to itself, and a
non-numeric value raises (`none`). -/
def parseFloatField (v : Option JsonNum) (current : ℚ) : Option ℚ :=
  match v with
  | none => some current
  | some (.num x) => some x
  | some .nonNumeric => none

/-- The body of `update_sensors` in `main.py`: the three fields are parsed
and assigned one after the other inside a single `try`; an exception aborts
the handler, leaving the assignments already performed in place. -/
def update_sensors (s : SensorData) (p : SensorPayload) : SensorData × UpdateResult :=
  match parseFloatField p.temperature s.temperature with
  | none => (s, .error)
  | some t =>
    let s1 : SensorData := { s with temperature := t }
    match parseFloatField p.humidity s1.humidity with
    | none => (s1, .error)
    | some h =>
      let s2 : SensorData := { s1 with humidity := h }
      match parseFloatField p.ethylene_ppm s2.ethylene_ppm with
      | none => (s2, .error)
      | some e => ({ s2 with ethylene_ppm := e }, .ok)

/-! ## Static profile tables -/

/-- `SHELF_LIFE_HOURS` of `main.py`. -/
def SHELF_LIFE_HOURS : List (String × ℚ) :=
  [("banana", 72), ("apple", 120), ("grapes", 48), ("pear", 50), ("orange", 168),
   ("strawberry", 48), ("kiwi", 96), ("pineapple", 96), ("mango", 96), ("blueberry", 72),
   ("peach", 72), ("plum", 96), ("watermelon", 120), ("lemon", 168), ("lime", 168),
   ("papaya", 96), ("cherry", 72), ("pomegranate", 336)]

/-- `RESPIRATION_CONSTANTS` of `main.py`. -/
def RESPIRATION_CONSTANTS : List (String × ℚ) :=
  [("banana", 1.2), ("apple", 0.7), ("grapes", 1.0), ("pear", 0.9), ("orange", 0.6),
   ("strawberry", 1.5), ("kiwi", 1.1), ("pineapple", 1.3), ("mango", 1.2), ("blueberry", 1.4),
   ("peach", 1.1), ("plum", 1.0), ("watermelon", 0.6), ("lemon", 0.5), ("lime", 0.5),
   ("papaya", 1.3), ("cherry", 1.4), ("pomegranate", 0.3)]

/-- `dict.get(fruit, default)` on an association list. -/
def lookupKey {α : Type} : List (String × α) → String → Option α
  | [], _ => none
  | (g, w) :: rest, f => if g = f then some w else lookupKey rest f

/-- `d[f] = v` on an association list: replace in place if the key is
present (keeping its position), append at the end otherwise — exactly the
insertion-order behaviour of a Python dict. -/
def setKey {α : Type} : List (String × α) → String → α → List (String × α)
  | [], f, v => [(f, v)]
  | (g, w) :: rest, f, v => if g = f then (f, v) :: rest else (g, w) :: setKey rest f v

/-- `SHELF_LIFE_HOURS.get(fruit, 72)`. -/
def base_life (fruit : String) : ℚ := (lookupKey SHELF_LIFE_HOURS fruit).getD 72

/-- `RESPIRATION_CONSTANTS.get(fruit, 1.0)`. -/
def respiration (fruit : String) : ℚ := (lookupKey RESPIRATION_CONSTANTS fruit).getD 1

/-! ## Freshness model -/

/-- `Q10 = 2.0` of `main.py`. -/
def Q10 : ℝ := 2

/-- `environment_factor_q10` of `main.py`:
`Q10 ** ((temp - 4.0) / 10.0) / (1.0 if humidity >= 60 else 0.85)`. -/
noncomputable def environment_factor_q10 (temp humidity : ℝ) : ℝ :=
  Q10 ^ ((temp - 4.0) / 10.0) / (if humidity ≥ 60 then (1.0 : ℝ) else 0.85)

/-- One element of the `estimate_rsl` list comprehension:
`max(0, (base_life / respiration) / env_factor - (now_unix - ts) / 3600)`. -/
noncomputable def remaining_hours (fruit : String) (ts now : ℤ) (temp humidity : ℝ) : ℝ :=
  max 0 (((base_life fruit : ℝ) / (respiration fruit : ℝ)) / environment_factor_q10 temp humidity
    - ((now : ℝ) - (ts : ℝ)) / 3600)

/-- `estimate_rsl` of `main.py`. -/
noncomputable def estimate_rsl (fruit : String) (timestamps : List ℤ) (now : ℤ)
    (temp humidity : ℝ) : List ℝ :=
  timestamps.map fun ts => remaining_hours fruit ts now temp humidity

/-! ## Reconciliation engine (`process_image`) -/

/-- The inventory document: Python dict fruit ↦ `{"timestamps": [...]}`. -/
abbrev Inventory := List (String × List ℤ)

/-- One structural alert string of `process_image`, with its payload data
(the rendering into an f-string is presentation only):
`newItem f` = `"New item detected: {f}"`,
`added n f c` = `"{n} more {f}(s) added (now {c})"`,
`removed n f ts` = `"{n} {f}(s) removed — choose one of: {dates of ts}"`,
`allRemoved f` = `"All {f}s removed from inventory"`. -/
inductive Alert where
  | newItem (fruit : String)
  | added (n : ℕ) (fruit : String) (total : ℕ)
  | removed (n : ℕ) (fruit : String) (removedTs : List ℤ)
  | allRemoved (fruit : String)
  deriving DecidableEq, Repr

/-- The item type an alert is about. -/
def alertFruit : Alert → String
  | .newItem f => f
  | .added _ f _ => f
  | .removed _ f _ => f
  | .allRemoved f => f

/-- The body of the first `for fruit, count in current_counts.items()` loop
of `process_image`, for a single detected `(fruit, count)` pair. -/
def applyDetected (inv : Inventory) (now : ℤ) (p : String × ℕ) : Inventory × List Alert :=
  let timestamps := (lookupKey inv p.1).getD []
  let old_count := timestamps.length
  let is_new := (lookupKey inv p.1).isNone
  let inv1 := if is_new then setKey inv p.1 [] else inv
  let alerts1 : List Alert := if is_new then [.newItem p.1] else []
  if old_count < p.2 then
    (setKey inv1 p.1 (timestamps ++ List.replicate (p.2 - old_count) now),
      alerts1 ++ [.added (p.2 - old_count) p.1 p.2])
  else if p.2 < old_count then
    (setKey inv1 p.1 (timestamps.drop (old_count - p.2)),
      alerts1 ++ [.removed (old_count - p.2) p.1 (timestamps.take (old_count - p.2))])
  else (inv1, alerts1)

/-- The first loop of `process_image`, over all of `current_counts` in
iteration order, threading the inventory and accumulating alerts. -/
def detectedPass (inv : Inventory) (now : ℤ) : List (String × ℕ) → Inventory × List Alert
  | [] => (inv, [])
  | p :: rest =>
    let s := applyDetected inv now p
    let r := detectedPass s.1 now rest
    (r.1, s.2 ++ r.2)

/-- The second loop of `process_image`:
`for fruit in list(inventory_data.keys()): if fruit not in current_counts:`
emit the "all removed" alert and `pop` the entry. -/
def absentPass : Inventory → List String → Inventory × List Alert
  | [], _ => ([], [])
  | (g, w) :: rest, keys =>
    let r := absentPass rest keys
    if g ∈ keys then ((g, w) :: r.1, r.2) else (r.1, .allRemoved g :: r.2)

/-- The reconciliation core of `process_image`: both loops, alerts of the
first loop before those of the second, as appended to the `alerts` list. -/
def reconcile (inv : Inventory) (detected : List (String × ℕ)) (now : ℤ) :
    Inventory × List Alert :=
  let r1 := detectedPass inv now detected
  let r2 := absentPass r1.1 (detected.map Prod.fst)
  (r2.1, r1.2 ++ r2.2)

/-! ## Near-spoilage scan (`process_image`, RSL alert loop) -/

/-- The RSL alert string
`"RSL alert: {fruit} placed at {readable_ts} is near spoilage ({rsl:.1f}h left)"`,
with its payload data. -/
structure RslAlert where
  fruit : String
  placedAt : ℤ
  remaining : ℝ

/-- The `for idx, rsl in enumerate(rsl_list): if rsl <= 6:` loop of
`process_image` for a single inventory entry. -/
noncomputable def entry_rsl_alerts (fruit : String) (timestamps : List ℤ) (now : ℤ)
    (temp humidity : ℝ) : List RslAlert :=
  (timestamps.zip (estimate_rsl fruit timestamps now temp humidity)).filterMap
    fun q => if q.2 ≤ 6 then some ⟨fruit, q.1, q.2⟩ else none

/-- The full near-spoilage scan of `process_image`, over every entry of the
committed inventory. -/
noncomputable def scan_rsl (inv : Inventory) (now : ℤ) (temp humidity : ℝ) : List RslAlert :=
  inv.flatMap fun p => entry_rsl_alerts p.1 p.2 now temp humidity

/-! ## Association-list lemmas -/

theorem lookupKey_setKey_self {α : Type} (l : List (String × α)) (f : String) (v : α) :
    lookupKey (setKey l f v) f = some v := by
  induction l with
  | nil => simp [setKey, lookupKey]
  | cons p rest ih =>
    obtain ⟨g, w⟩ := p
    by_cases h : g = f
    · simp [setKey, lookupKey, h]
    · simp [setKey, lookupKey, h, ih]

theorem lookupKey_setKey_ne {α : Type} (l : List (String × α)) (f g : String) (v : α)
    (h : g ≠ f) : lookupKey (setKey l f v) g = lookupKey l g := by
  have hfg : f ≠ g := fun hh => h hh.symm
  induction l with
  | nil => simp [setKey, lookupKey, hfg]
  | cons p rest ih =>
    obtain ⟨g', w⟩ := p
    by_cases h' : g' = f
    · subst h'
      simp [setKey, lookupKey, hfg]
    · simp only [setKey, lookupKey, if_neg h']
      by_cases h'' : g' = g <;> simp [h'', ih]

theorem lookupKey_eq_none {α : Type} (l : List (String × α)) (f : String) :
    lookupKey l f = none ↔ f ∉ l.map Prod.fst := by
  induction l with
  | nil => simp [lookupKey]
  | cons p rest ih =>
    obtain ⟨g, w⟩ := p
    by_cases h : g = f
    · subst h
      simp [lookupKey]
    · have hfg : f ≠ g := fun hh => h hh.symm
      simp [lookupKey, h, hfg, ih]

theorem lookupKey_mem {α : Type} {l : List (String × α)} {f : String} {v : α}
    (h : lookupKey l f = some v) : (f, v) ∈ l := by
  induction l with
  | nil => simp [lookupKey] at h
  | cons p rest ih =>
    obtain ⟨g, w⟩ := p
    by_cases h' : g = f
    · subst h'
      rw [lookupKey, if_pos rfl] at h
      rw [Option.some.injEq] at h
      subst h
      exact List.mem_cons_self _ _
    · rw [lookupKey, if_neg h'] at h
      exact List.mem_cons_of_mem _ (ih h)

theorem mem_lookupKey_isSome {α : Type} {l : List (String × α)} {f : String} {v : α}
    (h : (f, v) ∈ l) : ∃ w, lookupKey l f = some w := by
  induction l with
  | nil => simp at h
  | cons p rest ih =>
    obtain ⟨g, w'⟩ := p
    by_cases h' : g = f
    · refine ⟨w', ?_⟩
      rw [lookupKey, if_pos h']
    · rcases List.mem_cons.mp h with h'' | h''
      · exact absurd (congrArg Prod.fst h''.symm) h'
      · obtain ⟨w, hw⟩ := ih h''
        refine ⟨w, ?_⟩
        rw [lookupKey, if_neg h', hw]

theorem lookupKey_of_mem_nodup {α : Type} {l : List (String × α)} {f : String} {v : α}
    (hn : (l.map Prod.fst).Nodup) (h : (f, v) ∈ l) : lookupKey l f = some v := by
  induction l with
  | nil => simp at h
  | cons p rest ih =>
    obtain ⟨g, w⟩ := p
    simp only [List.map_cons, List.nodup_cons] at hn
    rcases List.mem_cons.mp h with h' | h'
    · cases h'
      simp [lookupKey]
    · have hgf : g ≠ f := by
        intro hgf
        exact hn.1 (List.mem_map.mpr ⟨(f, v), h', hgf.symm⟩)
      simp [lookupKey, hgf, ih hn.2 h']

theorem setKey_map_fst_mem {α : Type} {l : List (String × α)} {f : String} (v : α)
    (h : f ∈ l.map Prod.fst) : (setKey l f v).map Prod.fst = l.map Prod.fst := by
  induction l with
  | nil => simp at h
  | cons p rest ih =>
    obtain ⟨g, w⟩ := p
    by_cases h' : g = f
    · simp [setKey, h']
    · simp only [List.map_cons] at h
      rcases List.mem_cons.mp h with h'' | h''
      · exact absurd h''.symm h'
      · simp [setKey, h', ih h'']

theorem setKey_map_fst_not_mem {α : Type} {l : List (String × α)} {f : String} (v : α)
    (h : f ∉ l.map Prod.fst) : (setKey l f v).map Prod.fst = l.map Prod.fst ++ [f] := by
  induction l with
  | nil => simp [setKey]
  | cons p rest ih =>
    obtain ⟨g, w⟩ := p
    simp only [List.map_cons, List.mem_cons] at h
    push_neg at h
    have hgf : g ≠ f := fun hh => h.1 hh.symm
    simp [setKey, hgf, ih h.2]

theorem setKey_setKey {α : Type} (l : List (String × α)) (f : String) (v w : α) :
    setKey (setKey l f v) f w = setKey l f w := by
  induction l with
  | nil => simp [setKey]
  | cons p rest ih =>
    obtain ⟨g, w'⟩ := p
    by_cases h : g = f
    · simp [setKey, h]
    · simp [setKey, h, ih]

/-! ## One step of the detection loop -/

theorem applyDetected_new_pos (inv : Inventory) (now : ℤ) (p : String × ℕ)
    (hl : lookupKey inv p.1 = none) (h : 0 < p.2) :
    applyDetected inv now p
      = (setKey inv p.1 (List.replicate p.2 now), [.newItem p.1, .added p.2 p.1 p.2]) := by
  unfold applyDetected
  rw [hl]
  simp [h, setKey_setKey]

theorem applyDetected_new_zero (inv : Inventory) (now : ℤ) (p : String × ℕ)
    (hl : lookupKey inv p.1 = none) (h : p.2 = 0) :
    applyDetected inv now p = (setKey inv p.1 [], [.newItem p.1]) := by
  unfold applyDetected
  rw [hl]
  simp [h]

theorem applyDetected_grow (inv : Inventory) (now : ℤ) (p : String × ℕ) (ts : List ℤ)
    (hl : lookupKey inv p.1 = some ts) (h : ts.length < p.2) :
    applyDetected inv now p
      = (setKey inv p.1 (ts ++ List.replicate (p.2 - ts.length) now),
          [.added (p.2 - ts.length) p.1 p.2]) := by
  unfold applyDetected
  rw [hl]
  simp [h]

theorem applyDetected_shrink (inv : Inventory) (now : ℤ) (p : String × ℕ) (ts : List ℤ)
    (hl : lookupKey inv p.1 = some ts) (h : p.2 < ts.length) :
    applyDetected inv now p
      = (setKey inv p.1 (ts.drop (ts.length - p.2)),
          [.removed (ts.length - p.2) p.1 (ts.take (ts.length - p.2))]) := by
  unfold applyDetected
  rw [hl]
  simp [h, Nat.lt_asymm h]

theorem applyDetected_same (inv : Inventory) (now : ℤ) (p : String × ℕ) (ts : List ℤ)
    (hl : lookupKey inv p.1 = some ts) (h : p.2 = ts.length) :
    applyDetected inv now p = (inv, []) := by
  unfold applyDetected
  rw [hl]
  simp [h]

theorem applyDetected_lookup_ne (inv : Inventory) (now : ℤ) (p : String × ℕ) (g : String)
    (h : g ≠ p.1) : lookupKey (applyDetected inv now p).1 g = lookupKey inv g := by
  cases hl : lookupKey inv p.1 with
  | none =>
    rcases Nat.eq_zero_or_pos p.2 with h0 | h0
    · rw [applyDetected_new_zero inv now p hl h0]
      simp [lookupKey_setKey_ne _ _ _ _ h]
    · rw [applyDetected_new_pos inv now p hl h0]
      simp [lookupKey_setKey_ne _ _ _ _ h]
  | some ts =>
    rcases Nat.lt_trichotomy ts.length p.2 with h1 | h1 | h1
    · rw [applyDetected_grow inv now p ts hl h1]
      simp [lookupKey_setKey_ne _ _ _ _ h]
    · rw [applyDetected_same inv now p ts hl h1.symm]
    · rw [applyDetected_shrink inv now p ts hl h1]
      simp [lookupKey_setKey_ne _ _ _ _ h]

theorem applyDetected_lookup_self (inv : Inventory) (now : ℤ) (p : String × ℕ) :
    ∃ l, lookupKey (applyDetected inv now p).1 p.1 = some l ∧ l.length = p.2 := by
  cases hl : lookupKey inv p.1 with
  | none =>
    rcases Nat.eq_zero_or_pos p.2 with h0 | h0
    · rw [applyDetected_new_zero inv now p hl h0]
      exact ⟨[], lookupKey_setKey_self _ _ _, h0.symm⟩
    · rw [applyDetected_new_pos inv now p hl h0]
      exact ⟨List.replicate p.2 now, lookupKey_setKey_self _ _ _, List.length_replicate _ _⟩
  | some ts =>
    rcases Nat.lt_trichotomy ts.length p.2 with h1 | h1 | h1
    · rw [applyDetected_grow inv now p ts hl h1]
      refine ⟨_, lookupKey_setKey_self _ _ _, ?_⟩
      simp
      omega
    · rw [applyDetected_same inv now p ts hl h1.symm]
      exact ⟨ts, hl, h1⟩
    · rw [applyDetected_shrink inv now p ts hl h1]
      refine ⟨_, lookupKey_setKey_self _ _ _, ?_⟩
      simp
      omega

theorem applyDetected_alerts_congr (inv inv' : Inventory) (now : ℤ) (p : String × ℕ)
    (h : lookupKey inv p.1 = lookupKey inv' p.1) :
    (applyDetected inv now p).2 = (applyDetected inv' now p).2 := by
  cases hl : lookupKey inv' p.1 with
  | none =>
    rw [hl] at h
    rcases Nat.eq_zero_or_pos p.2 with h0 | h0
    · rw [applyDetected_new_zero inv now p h h0, applyDetected_new_zero inv' now p hl h0]
    · rw [applyDetected_new_pos inv now p h h0, applyDetected_new_pos inv' now p hl h0]
  | some ts =>
    rw [hl] at h
    rcases Nat.lt_trichotomy ts.length p.2 with h1 | h1 | h1
    · rw [applyDetected_grow inv now p ts h h1, applyDetected_grow inv' now p ts hl h1]
    · rw [applyDetected_same inv now p ts h h1.symm, applyDetected_same inv' now p ts hl h1.symm]
    · rw [applyDetected_shrink inv now p ts h h1, applyDetected_shrink inv' now p ts hl h1]

theorem applyDetected_alertFruit (inv : Inventory) (now : ℤ) (p : String × ℕ) (a : Alert)
    (ha : a ∈ (applyDetected inv now p).2) : alertFruit a = p.1 := by
  cases hl : lookupKey inv p.1 with
  | none =>
    rcases Nat.eq_zero_or_pos p.2 with h0 | h0
    · rw [applyDetected_new_zero inv now p hl h0] at ha
      rcases List.mem_singleton.mp ha with rfl
      rfl
    · rw [applyDetected_new_pos inv now p hl h0] at ha
      rcases List.mem_cons.mp ha with rfl | ha
      · rfl
      · rcases List.mem_singleton.mp ha with rfl
        rfl
  | some ts =>
    rcases Nat.lt_trichotomy ts.length p.2 with h1 | h1 | h1
    · rw [applyDetected_grow inv now p ts hl h1] at ha
      rcases List.mem_singleton.mp ha with rfl
      rfl
    · rw [applyDetected_same inv now p ts hl h1.symm] at ha
      simp at ha
    · rw [applyDetected_shrink inv now p ts hl h1] at ha
      rcases List.mem_singleton.mp ha with rfl
      rfl

theorem applyDetected_map_fst (inv : Inventory) (now : ℤ) (p : String × ℕ) :
    (applyDetected inv now p).1.map Prod.fst =
      inv.map Prod.fst ++ (if p.1 ∈ inv.map Prod.fst then [] else [p.1]) := by
  cases hl : lookupKey inv p.1 with
  | none =>
    have hmem : p.1 ∉ inv.map Prod.fst := (lookupKey_eq_none inv p.1).mp hl
    rcases Nat.eq_zero_or_pos p.2 with h0 | h0
    · rw [applyDetected_new_zero inv now p hl h0]
      simp [setKey_map_fst_not_mem _ hmem, hmem]
    · rw [applyDetected_new_pos inv now p hl h0]
      simp [setKey_map_fst_not_mem _ hmem, hmem]
  | some ts =>
    have hmem : p.1 ∈ inv.map Prod.fst :=
      List.mem_map.mpr ⟨(p.1, ts), lookupKey_mem hl, rfl⟩
    rcases Nat.lt_trichotomy ts.length p.2 with h1 | h1 | h1
    · rw [applyDetected_grow inv now p ts hl h1]
      simp [setKey_map_fst_mem _ hmem, hmem]
    · rw [applyDetected_same inv now p ts hl h1.symm]
      simp [hmem]
    · rw [applyDetected_shrink inv now p ts hl h1]
      simp [setKey_map_fst_mem _ hmem, hmem]

/-! ## The detection pass as a whole -/

theorem detectedPass_cons (inv : Inventory) (now : ℤ) (p : String × ℕ)
    (rest : List (String × ℕ)) :
    detectedPass inv now (p :: rest)
      = ((detectedPass (applyDetected inv now p).1 now rest).1,
          (applyDetected inv now p).2 ++ (detectedPass (applyDetected inv now p).1 now rest).2) :=
  rfl

theorem detectedPass_lookup_not_mem (now : ℤ) (detected : List (String × ℕ)) (inv : Inventory)
    (f : String) (h : f ∉ detected.map Prod.fst) :
    lookupKey (detectedPass inv now detected).1 f = lookupKey inv f := by
  induction detected generalizing inv with
  | nil => rfl
  | cons p rest ih =>
    simp only [List.map_cons, List.mem_cons] at h
    push_neg at h
    rw [detectedPass_cons]
    rw [ih _ h.2, applyDetected_lookup_ne _ _ _ _ h.1]

theorem detectedPass_lookup_mem (now : ℤ) (detected : List (String × ℕ)) (inv : Inventory)
    (f : String) (c : ℕ) (hd : (detected.map Prod.fst).Nodup) (hmem : (f, c) ∈ detected) :
    ∃ l, lookupKey (detectedPass inv now detected).1 f = some l ∧ l.length = c := by
  induction detected generalizing inv with
  | nil => simp at hmem
  | cons p rest ih =>
    simp only [List.map_cons, List.nodup_cons] at hd
    rw [detectedPass_cons]
    rcases List.mem_cons.mp hmem with h' | h'
    · subst h'
      obtain ⟨l, hl, hlen⟩ := applyDetected_lookup_self inv now (f, c)
      refine ⟨l, ?_, hlen⟩
      rw [detectedPass_lookup_not_mem _ _ _ _ hd.1]
      exact hl
    · exact ih _ hd.2 h'

theorem detectedPass_alerts (now : ℤ) (detected : List (String × ℕ)) (inv prev : Inventory)
    (hd : (detected.map Prod.fst).Nodup)
    (hsame : ∀ p ∈ detected, lookupKey inv p.1 = lookupKey prev p.1) :
    (detectedPass inv now detected).2
      = detected.flatMap (fun p => (applyDetected prev now p).2) := by
  induction detected generalizing inv with
  | nil => rfl
  | cons p rest ih =>
    simp only [List.map_cons, List.nodup_cons] at hd
    rw [detectedPass_cons, List.flatMap_cons]
    dsimp only
    congr 1
    · exact applyDetected_alerts_congr _ _ _ _ (hsame p (List.mem_cons_self _ _))
    · refine ih _ hd.2 ?_
      intro q hq
      have hne : q.1 ≠ p.1 := by
        intro hh
        exact hd.1 (hh ▸ List.mem_map.mpr ⟨q, hq, rfl⟩)
      rw [applyDetected_lookup_ne _ _ _ _ hne]
      exact hsame q (List.mem_cons_of_mem _ hq)

theorem detectedPass_map_fst (now : ℤ) (detected : List (String × ℕ)) (inv : Inventory) :
    ∃ ks, (detectedPass inv now detected).1.map Prod.fst = inv.map Prod.fst ++ ks
      ∧ ∀ k ∈ ks, k ∈ detected.map Prod.fst := by
  induction detected generalizing inv with
  | nil => exact ⟨[], by simp [detectedPass], by simp⟩
  | cons p rest ih =>
    obtain ⟨ks, hks, hsub⟩ := ih (applyDetected inv now p).1
    refine ⟨(if p.1 ∈ inv.map Prod.fst then [] else [p.1]) ++ ks, ?_, ?_⟩
    · rw [detectedPass_cons]
      dsimp only
      rw [hks, applyDetected_map_fst, List.append_assoc]
    · intro k hk
      simp only [List.map_cons, List.mem_cons]
      rcases List.mem_append.mp hk with hk | hk
      · split at hk
        · simp at hk
        · simp only [List.mem_singleton] at hk
          exact Or.inl hk
      · exact Or.inr (hsub k hk)

theorem detectedPass_nodup (now : ℤ) (detected : List (String × ℕ)) (inv : Inventory)
    (hn : (inv.map Prod.fst).Nodup) :
    ((detectedPass inv now detected).1.map Prod.fst).Nodup := by
  induction detected generalizing inv with
  | nil => exact hn
  | cons p rest ih =>
    rw [detectedPass_cons]
    dsimp only
    apply ih
    rw [applyDetected_map_fst]
    split_ifs with h
    · simpa using hn
    · simp [List.nodup_append, hn, h]

theorem detectedPass_alertFruit (now : ℤ) (detected : List (String × ℕ)) (inv : Inventory)
    (a : Alert) (ha : a ∈ (detectedPass inv now detected).2) :
    alertFruit a ∈ detected.map Prod.fst := by
  induction detected generalizing inv with
  | nil => simp [detectedPass] at ha
  | cons p rest ih =>
    rw [detectedPass_cons] at ha
    dsimp only at ha
    rcases List.mem_append.mp ha with ha | ha
    · rw [applyDetected_alertFruit _ _ _ _ ha]
      exact List.mem_cons_self _ _
    · exact List.mem_cons_of_mem _ (ih _ ha)

theorem detectedPass_id (now : ℤ) (detected : List (String × ℕ)) (inv : Inventory)
    (h : ∀ p ∈ detected, ∃ ts, lookupKey inv p.1 = some ts ∧ p.2 = ts.length) :
    detectedPass inv now detected = (inv, []) := by
  induction detected with
  | nil => rfl
  | cons p rest ih =>
    obtain ⟨ts, hts, hc⟩ := h p (List.mem_cons_self _ _)
    rw [detectedPass_cons, applyDetected_same inv now p ts hts hc]
    dsimp only
    rw [ih fun q hq => h q (List.mem_cons_of_mem _ hq)]
    rfl

/-! ## The absent-type pass -/

theorem absentPass_fst (inv : Inventory) (keys : List String) :
    (absentPass inv keys).1 = inv.filter fun q => decide (q.1 ∈ keys) := by
  induction inv with
  | nil => rfl
  | cons q rest ih =>
    obtain ⟨g, w⟩ := q
    by_cases h : g ∈ keys <;> simp [absentPass, List.filter_cons, h, ih]

theorem absentPass_snd (inv : Inventory) (keys : List String) :
    (absentPass inv keys).2
      = ((inv.map Prod.fst).filter fun f => decide (f ∉ keys)).map Alert.allRemoved := by
  induction inv with
  | nil => rfl
  | cons q rest ih =>
    obtain ⟨g, w⟩ := q
    by_cases h : g ∈ keys <;> simp [absentPass, List.filter_cons, h, ih]

theorem absentPass_id (inv : Inventory) (keys : List String)
    (h : ∀ q ∈ inv, q.1 ∈ keys) : absentPass inv keys = (inv, []) := by
  induction inv with
  | nil => rfl
  | cons q rest ih =>
    obtain ⟨g, w⟩ := q
    have hg : g ∈ keys := h (g, w) (List.mem_cons_self _ _)
    have hrest := ih fun q hq => h q (List.mem_cons_of_mem _ hq)
    simp [absentPass, hg, hrest]

/-! ## Reconciliation at the top level -/

theorem reconcile_fst (prev : Inventory) (detected : List (String × ℕ)) (now : ℤ) :
    (reconcile prev detected now).1
      = (detectedPass prev now detected).1.filter
          fun q => decide (q.1 ∈ detected.map Prod.fst) := by
  have h : (reconcile prev detected now).1
      = (absentPass (detectedPass prev now detected).1 (detected.map Prod.fst)).1 := rfl
  rw [h, absentPass_fst]

theorem reconcile_snd (prev : Inventory) (detected : List (String × ℕ)) (now : ℤ) :
    (reconcile prev detected now).2
      = (detectedPass prev now detected).2
        ++ (((detectedPass prev now detected).1.map Prod.fst).filter
              fun f => decide (f ∉ detected.map Prod.fst)).map Alert.allRemoved := by
  have h : (reconcile prev detected now).2
      = (detectedPass prev now detected).2
        ++ (absentPass (detectedPass prev now detected).1 (detected.map Prod.fst)).2 := rfl
  rw [h, absentPass_snd]

theorem count_map_allRemoved (ks : List String) (f : String) :
    (ks.map Alert.allRemoved).count (Alert.allRemoved f) = ks.count f := by
  induction ks with
  | nil => rfl
  | cons g rest ih =>
    by_cases h : g = f <;> simp [List.count_cons, h, ih]

/-! ## Claim theorems -/

/-- **C1, counterexample.**  The claim says a non-numeric value for any of
the three sensor fields is rejected *before mutating* `SENSOR_DATA`, leaving
all three fields unchanged.  The code parses and assigns the fields in
sequence, so a numeric temperature together with a non-numeric humidity is
reported as an error *after* the temperature has already been overwritten: a
partial update survives. -/
theorem update_sensors_not_atomic :
    (update_sensors SENSOR_DATA_init
        ⟨some (.num 10), some .nonNumeric, none⟩).2 = .error
    ∧ (update_sensors SENSOR_DATA_init
        ⟨some (.num 10), some .nonNumeric, none⟩).1.temperature
        ≠ SENSOR_DATA_init.temperature := by
  decide

/-- **C1, amended.**  A non-numeric value among the three sensor fields
makes `update_sensors` report an error; the field that failed to parse and
every field after it keep their previous values, and when the very first
field (temperature) is the non-numeric one the whole `SENSOR_DATA` is
unchanged.  Fields parsed before the failing one, however, have already
been overwritten. -/
theorem update_sensors_error_frame (s : SensorData) (p : SensorPayload)
    (h : p.temperature = some .nonNumeric ∨ p.humidity = some .nonNumeric
        ∨ p.ethylene_ppm = some .nonNumeric) :
    (update_sensors s p).2 = .error
    ∧ (p.temperature = some .nonNumeric → (update_sensors s p).1 = s)
    ∧ (p.humidity = some .nonNumeric →
        (update_sensors s p).1.humidity = s.humidity
        ∧ (update_sensors s p).1.ethylene_ppm = s.ethylene_ppm)
    ∧ (p.ethylene_ppm = some .nonNumeric →
        (update_sensors s p).1.ethylene_ppm = s.ethylene_ppm) := by
  obtain ⟨pt, ph, pe⟩ := p
  rcases pt with _ | pt
  on_goal 2 => rcases pt with x | _
  all_goals rcases ph with _ | ph
  all_goals try rcases ph with y | _
  all_goals rcases pe with _ | pe
  all_goals try rcases pe with z | _
  all_goals simp_all [update_sensors, parseFloatField]

/-- **C1, witness.**  Concrete instance of the amended claim: a payload with
a non-numeric humidity is reported as an error. -/
theorem update_sensors_error_frame_inst :
    (update_sensors SENSOR_DATA_init ⟨none, some .nonNumeric, none⟩).2 = .error :=
  (update_sensors_error_frame SENSOR_DATA_init ⟨none, some .nonNumeric, none⟩
    (Or.inr (Or.inl rfl))).1

/-- **C9, counterexample.**  The claim says a successful sensor update is
wholesale: the new state is determined by the payload alone.  But a field
missing from the payload falls back to the *current* value
(`data.get(key, SENSOR_DATA[key])`), so the same payload applied to two
different prior states can succeed with two different results. -/
theorem update_sensors_keeps_missing_fields :
    (update_sensors ⟨4, 85, 0⟩ ⟨some (.num 1), none, some (.num 2)⟩).2 = .ok
    ∧ (update_sensors ⟨4, 50, 0⟩ ⟨some (.num 1), none, some (.num 2)⟩).2 = .ok
    ∧ (update_sensors ⟨4, 85, 0⟩ ⟨some (.num 1), none, some (.num 2)⟩).1
        ≠ (update_sensors ⟨4, 50, 0⟩ ⟨some (.num 1), none, some (.num 2)⟩).1 := by
  decide

/-- **C9, amended.**  For *every* successful sensor update: each field
supplied in the payload ends up holding the payload's parsed value, each
field missing from the payload retains its previous value, and in
particular a payload supplying all three fields replaces `SENSOR_DATA`
wholesale, determined by the payload alone (last-write-wins), independently
of the prior state. -/
theorem update_sensors_full_payload (s : SensorData) (p : SensorPayload)
    (h : (update_sensors s p).2 = .ok) :
    (∀ x : ℚ, p.temperature = some (.num x) → (update_sensors s p).1.temperature = x)
    ∧ (p.temperature = none → (update_sensors s p).1.temperature = s.temperature)
    ∧ (∀ x : ℚ, p.humidity = some (.num x) → (update_sensors s p).1.humidity = x)
    ∧ (p.humidity = none → (update_sensors s p).1.humidity = s.humidity)
    ∧ (∀ x : ℚ, p.ethylene_ppm = some (.num x) → (update_sensors s p).1.ethylene_ppm = x)
    ∧ (p.ethylene_ppm = none → (update_sensors s p).1.ethylene_ppm = s.ethylene_ppm)
    ∧ (∀ t x e : ℚ, p = ⟨some (.num t), some (.num x), some (.num e)⟩ →
        update_sensors s p = (⟨t, x, e⟩, .ok)) := by
  obtain ⟨pt, ph, pe⟩ := p
  rcases pt with _ | pt
  on_goal 2 => rcases pt with x | _
  all_goals rcases ph with _ | ph
  all_goals try rcases ph with y | _
  all_goals rcases pe with _ | pe
  all_goals try rcases pe with z | _
  all_goals simp_all [update_sensors, parseFloatField]

/-- **C9, witness.**  Concrete instance of the amended claim: a successful
update supplying temperature 1 and omitting humidity yields temperature 1
(the payload value) and humidity 85 (the retained prior value). -/
theorem update_sensors_full_payload_inst :
    (update_sensors ⟨4, 85, 0⟩ ⟨some (.num 1), none, some (.num 2)⟩).1.temperature = 1
    ∧ (update_sensors ⟨4, 85, 0⟩ ⟨some (.num 1), none, some (.num 2)⟩).1.humidity = 85 :=
  ⟨(update_sensors_full_payload ⟨4, 85, 0⟩ ⟨some (.num 1), none, some (.num 2)⟩
      (by decide)).1 1 rfl,
   (update_sensors_full_payload ⟨4, 85, 0⟩ ⟨some (.num 1), none, some (.num 2)⟩
      (by decide)).2.2.2.1 rfl⟩

/-- **C2, counterexample.**  The claim quantifies over `detectedCounts`
mappings with *non-negative* counts, zero included.  A detected count of
zero for a type that held one timestamp drains its list, yet the key stays
in the mapping because the deletion sweep only removes keys absent from
`detectedCounts`: an empty entry persists in the produced snapshot. -/
theorem reconcile_keeps_empty_entry :
    ("apple", ([] : List ℤ)) ∈ (reconcile [("apple", [1000])] [("apple", 0)] 2000).1 := by
  decide

/-- **C2, amended.**  For every previous snapshot (with dict-unique keys)
and every `detectedCounts` with *strictly positive* counts, the snapshot
produced by one reconciliation cycle contains no item type with an empty
timestamp list. -/
theorem reconcile_no_empty_entries (prev : Inventory) (detected : List (String × ℕ))
    (now : ℤ) (hp : (prev.map Prod.fst).Nodup) (hd : (detected.map Prod.fst).Nodup)
    (hpos : ∀ p ∈ detected, 0 < p.2) :
    ∀ q ∈ (reconcile prev detected now).1, q.2 ≠ [] := by
  intro q hq
  rw [reconcile_fst, List.mem_filter] at hq
  obtain ⟨hq1, hq2⟩ := hq
  have hq2' : q.1 ∈ detected.map Prod.fst := of_decide_eq_true hq2
  obtain ⟨pc, hpc, hfst⟩ := List.mem_map.mp hq2'
  have hmem : (q.1, pc.2) ∈ detected := by
    have hpc' : pc = (q.1, pc.2) := by
      apply Prod.ext <;> simp [hfst]
    rw [← hpc']
    exact hpc
  obtain ⟨l, hl, hlen⟩ := detectedPass_lookup_mem now detected prev q.1 pc.2 hd hmem
  have hnodup := detectedPass_nodup now detected prev hp
  have hlq : lookupKey (detectedPass prev now detected).1 q.1 = some q.2 :=
    lookupKey_of_mem_nodup hnodup hq1
  rw [hl, Option.some.injEq] at hlq
  have hpos' : 0 < pc.2 := hpos pc hpc
  have : 0 < q.2.length := by rw [← hlq, hlen]; exact hpos'
  exact List.ne_nil_of_length_pos this

/-- **C2, witness.**  Concrete instance of the amended claim: the banana
entry produced by the cycle (two copies stamped at time 9) is non-empty. -/
theorem reconcile_no_empty_entries_inst : ([9, 9] : List ℤ) ≠ [] :=
  reconcile_no_empty_entries [("apple", [5])] [("apple", 1), ("banana", 2)] 9
    (by decide) (by decide) (by decide) ("banana", [9, 9]) (by decide)

/-- **C4.**  Partial removal (`0 < newCount < oldCount`): reconciliation
removes exactly `oldCount - newCount` timestamps from the front of the
type's list — the surviving timestamps are exactly the suffix
`ts.drop (oldCount - newCount)`, the removed ones exactly the corresponding
front segment `ts.take (oldCount - newCount)`, and the single removal alert
carries exactly those removed timestamps. -/
theorem reconcile_removes_oldest (f : String) (ts : List ℤ) (count : ℕ) (now : ℤ)
    (h1 : 0 < count) (h2 : count < ts.length) :
    reconcile [(f, ts)] [(f, count)] now
      = ([(f, ts.drop (ts.length - count))],
         [Alert.removed (ts.length - count) f (ts.take (ts.length - count))]) := by
  have hl : lookupKey [(f, ts)] (f, count).1 = some ts := by simp [lookupKey]
  have ha := applyDetected_shrink [(f, ts)] now (f, count) ts hl h2
  simp [reconcile, detectedPass, ha, absentPass, setKey]

/-- **C4, witness.**  Concrete instance: removing one of three apples drops
the front (oldest) two-element segment... (here `count = 1`, `oldCount = 3`:
two timestamps are removed from the front, the last survives). -/
theorem reconcile_removes_oldest_inst :
    reconcile [("apple", [1, 2, 3])] [("apple", 1)] 9
      = ([("apple", [3])], [Alert.removed 2 "apple" [1, 2]]) :=
  reconcile_removes_oldest "apple" [1, 2, 3] 1 9 (by decide) (by decide)

/-- **C5.**  Idempotence: reconciling with a `detectedCounts` whose per-type
counts coincide with the current snapshot's counts (same key set, each count
the length of that type's timestamp list — phrased via `lookupKey` on both
dicts) produces zero alerts and an unchanged snapshot. -/
theorem reconcile_idempotent (prev : Inventory) (detected : List (String × ℕ)) (now : ℤ)
    (hd : (detected.map Prod.fst).Nodup)
    (hmatch : ∀ f, lookupKey detected f = (lookupKey prev f).map List.length) :
    reconcile prev detected now = (prev, []) := by
  have h1 : ∀ p ∈ detected, ∃ ts, lookupKey prev p.1 = some ts ∧ p.2 = ts.length := by
    intro p hp
    have hlk : lookupKey detected p.1 = some p.2 := lookupKey_of_mem_nodup hd hp
    rw [hmatch p.1] at hlk
    cases hts : lookupKey prev p.1 with
    | none => rw [hts] at hlk; simp at hlk
    | some ts =>
      rw [hts] at hlk
      simp at hlk
      exact ⟨ts, rfl, hlk.symm⟩
  have h3 : ∀ q ∈ prev, q.1 ∈ detected.map Prod.fst := by
    intro q hq
    obtain ⟨w, hw⟩ := mem_lookupKey_isSome hq
    have hm := hmatch q.1
    rw [hw] at hm
    exact List.mem_map.mpr ⟨(q.1, w.length), lookupKey_mem hm, rfl⟩
  have h2 := detectedPass_id now detected prev h1
  have h4 := absentPass_id prev (detected.map Prod.fst) h3
  simp [reconcile, h2, h4]

/-- **C5, witness.**  Concrete instance of idempotence. -/
theorem reconcile_idempotent_inst :
    reconcile [("apple", [3, 4])] [("apple", 2)] 9 = ([("apple", [3, 4])], []) :=
  reconcile_idempotent _ _ 9 (by decide) (by
    intro f
    by_cases h : "apple" = f <;> simp [lookupKey, h])

/-- **C7.**  Stable alert order within one cycle: the alert list is exactly
the per-type new/added/removed alerts, in iteration order over the detected
types (each determined by the previous snapshot alone), followed by the
"all removed" alerts for the previously-known types absent from this cycle,
in iteration order over the previous snapshot. -/
theorem reconcile_alert_order (prev : Inventory) (detected : List (String × ℕ)) (now : ℤ)
    (hd : (detected.map Prod.fst).Nodup) :
    (reconcile prev detected now).2
      = (detected.flatMap fun p => (applyDetected prev now p).2)
        ++ ((prev.map Prod.fst).filter fun f => decide (f ∉ detected.map Prod.fst)).map
            Alert.allRemoved := by
  rw [reconcile_snd]
  congr 1
  · exact detectedPass_alerts now detected prev prev hd fun _ _ => rfl
  · obtain ⟨ks, hks, hsub⟩ := detectedPass_map_fst now detected prev
    rw [hks, List.filter_append]
    have hnil : (ks.filter fun f => decide (f ∉ detected.map Prod.fst)) = [] := by
      rw [List.filter_eq_nil_iff]
      intro k hk
      simpa using hsub k hk
    rw [hnil, List.append_nil]

/-- **C7, witness.**  Concrete instance of the alert-order theorem. -/
theorem reconcile_alert_order_inst :
    (reconcile [("apple", [1]), ("pear", [2])] [("apple", 2)] 7).2
      = ([("apple", 2)].flatMap fun p =>
            (applyDetected [("apple", [1]), ("pear", [2])] 7 p).2)
        ++ ((([("apple", [1]), ("pear", [2])] : Inventory).map Prod.fst).filter fun f =>
              decide (f ∉ [("apple", 2)].map Prod.fst)).map Alert.allRemoved :=
  reconcile_alert_order _ _ 7 (by decide)

/-- **C3, counterexample.**  The claim covers a detected count of zero that
is *present* in `detectedCounts`.  For such a type with `oldCount > 0` the
code runs the `count < old_count` branch (emitting a "removed" alert, not
the "all removed" one) and the deletion sweep does not fire because the key
is in `current_counts`: no "All ... removed" alert is emitted and the key
stays in the snapshot. -/
theorem reconcile_zero_count_not_all_removed :
    (reconcile [("apple", [1000])] [("apple", 0)] 2000).2.count (Alert.allRemoved "apple") = 0
    ∧ "apple" ∈ ((reconcile [("apple", [1000])] [("apple", 0)] 2000).1.map Prod.fst) := by
  decide

/-- **C3, amended.**  A type with `oldCount > 0` that is *fully absent from*
`detectedCounts` yields exactly one "All {type}s removed" alert and its key
is absent from the resulting snapshot; a type absent from `detectedCounts`
with *no entry* in the previous snapshot gets no alert of any kind. -/
theorem reconcile_disappearance (prev : Inventory) (detected : List (String × ℕ))
    (now : ℤ) (f : String) (hp : (prev.map Prod.fst).Nodup)
    (hd : (detected.map Prod.fst).Nodup) :
    (∀ ts, lookupKey prev f = some ts → ts ≠ [] → f ∉ detected.map Prod.fst →
        (reconcile prev detected now).2.count (Alert.allRemoved f) = 1
        ∧ f ∉ ((reconcile prev detected now).1.map Prod.fst))
    ∧ (lookupKey prev f = none → f ∉ detected.map Prod.fst →
        ∀ a ∈ (reconcile prev detected now).2, alertFruit a ≠ f) := by
  constructor
  · intro ts hts _ hfd
    constructor
    · rw [reconcile_snd, List.count_append]
      have hc1 : (detectedPass prev now detected).2.count (Alert.allRemoved f) = 0 := by
        rw [List.count_eq_zero]
        intro hmem
        exact hfd (detectedPass_alertFruit now detected prev _ hmem)
      rw [hc1, count_map_allRemoved]
      obtain ⟨ks, hks, hsub⟩ := detectedPass_map_fst now detected prev
      rw [hks, List.filter_append, List.count_append]
      have hf_pred : (fun g => decide (g ∉ detected.map Prod.fst)) f = true := by
        simpa using hfd
      have hstep : ((prev.map Prod.fst).filter
            fun g => decide (g ∉ detected.map Prod.fst)).count f
          = (prev.map Prod.fst).count f := List.count_filter hf_pred
      have hfprev : f ∈ prev.map Prod.fst :=
        List.mem_map.mpr ⟨(f, ts), lookupKey_mem hts, rfl⟩
      have hcount1 : (prev.map Prod.fst).count f = 1 := List.count_eq_one_of_mem hp hfprev
      have hks0 : (ks.filter fun g => decide (g ∉ detected.map Prod.fst)).count f = 0 := by
        rw [List.count_eq_zero]
        intro hmem
        exact hfd (hsub f (List.mem_of_mem_filter hmem))
      rw [hstep, hcount1, hks0]
    · rw [reconcile_fst]
      intro hmem
      obtain ⟨q, hq, hq1⟩ := List.mem_map.mp hmem
      rw [List.mem_filter] at hq
      exact hfd (hq1 ▸ of_decide_eq_true hq.2)
  · intro hnone hfd a ha
    rw [reconcile_snd] at ha
    rcases List.mem_append.mp ha with ha | ha
    · intro hef
      exact hfd (hef ▸ detectedPass_alertFruit now detected prev a ha)
    · obtain ⟨g, hg, hga⟩ := List.mem_map.mp ha
      obtain ⟨ks, hks, hsub⟩ := detectedPass_map_fst now detected prev
      rw [hks, List.filter_append] at hg
      intro hef
      have hgf : g = f := by
        rw [← hga] at hef
        simpa [alertFruit] using hef
      subst hgf
      rcases List.mem_append.mp hg with hg | hg
      · have hgprev : g ∈ prev.map Prod.fst := List.mem_of_mem_filter hg
        rw [lookupKey_eq_none] at hnone
        exact hnone hgprev
      · exact hfd (hsub g (List.mem_of_mem_filter hg))

/-- **C3, witness.**  Concrete instance of the amended claim: "apple" is in
the previous snapshot with one timestamp and absent from the detected
counts; exactly one "All apples removed" alert fires and the key is gone. -/
theorem reconcile_disappearance_inst :
    (reconcile [("apple", [7]), ("pear", [8])] [("pear", 1)] 9).2.count
        (Alert.allRemoved "apple") = 1
    ∧ "apple" ∉ ((reconcile [("apple", [7]), ("pear", [8])] [("pear", 1)] 9).1.map
        Prod.fst) :=
  (reconcile_disappearance _ _ 9 "apple" (by decide) (by decide)).1
    [7] (by decide) (by decide) (by decide)

/-! ## Freshness-model lemmas -/

theorem environment_factor_q10_ref : environment_factor_q10 4.0 85.0 = 1 := by
  unfold environment_factor_q10 Q10
  rw [show ((4.0 : ℝ) - 4.0) / 10.0 = (0 : ℝ) by norm_num, Real.rpow_zero]
  rw [if_pos (show (85.0 : ℝ) ≥ 60 by norm_num)]
  norm_num

theorem base_life_banana : base_life "banana" = 72 := by decide

theorem respiration_banana : respiration "banana" = 1.2 := by
  norm_num [respiration, RESPIRATION_CONSTANTS, lookupKey]

/-- **C6.**  `estimate_rsl` returns one value per timestamp, in order, each
equal to `max 0 ((baseShelfLife / respirationRate) / environmentFactor -
elapsedHours)` with the environment factor written out as
`2 ^ ((temp − 4)/10)` divided by the humidity divisor; and on the reference
banana example (base 72, respiration 1.2, temp 4.0, humidity 85.0, ages
10h / 20h / 70h) it yields `[50, 40, 0]`, clamped at zero. -/
theorem estimate_rsl_spec :
    (∀ (fruit : String) (timestamps : List ℤ) (now : ℤ) (temp humidity : ℝ),
      estimate_rsl fruit timestamps now temp humidity
        = timestamps.map fun (ts : ℤ) =>
            max 0 (((base_life fruit : ℝ) / (respiration fruit : ℝ))
              / ((2 : ℝ) ^ ((temp - 4.0) / 10.0) / (if humidity ≥ 60 then (1.0 : ℝ) else 0.85))
              - ((now : ℝ) - (ts : ℝ)) / 3600))
    ∧ estimate_rsl "banana" [64000, 28000, -152000] 100000 4.0 85.0 = [50.0, 40.0, 0.0] := by
  constructor
  · intro fruit timestamps now temp humidity
    rfl
  · simp only [estimate_rsl, List.map_cons, List.map_nil]
    unfold remaining_hours
    rw [base_life_banana, respiration_banana, environment_factor_q10_ref]
    push_cast
    norm_num [max_def]

/-! ## Near-spoilage scan lemmas -/

theorem entry_rsl_alerts_cons (f : String) (t : ℤ) (rest : List ℤ) (now : ℤ)
    (temp hum : ℝ) :
    entry_rsl_alerts f (t :: rest) now temp hum
      = (if remaining_hours f t now temp hum ≤ 6
          then [⟨f, t, remaining_hours f t now temp hum⟩] else [])
        ++ entry_rsl_alerts f rest now temp hum := by
  unfold entry_rsl_alerts
  rw [show estimate_rsl f (t :: rest) now temp hum
      = remaining_hours f t now temp hum :: estimate_rsl f rest now temp hum from rfl]
  rw [List.zip_cons_cons, List.filterMap_cons]
  split_ifs <;> simp

theorem mem_entry_rsl_alerts (f : String) (ts : List ℤ) (now : ℤ) (temp hum : ℝ)
    (a : RslAlert) :
    a ∈ entry_rsl_alerts f ts now temp hum
      ↔ ∃ t ∈ ts, remaining_hours f t now temp hum ≤ 6
          ∧ a = ⟨f, t, remaining_hours f t now temp hum⟩ := by
  induction ts with
  | nil => simp [entry_rsl_alerts, estimate_rsl]
  | cons t rest ih =>
    rw [entry_rsl_alerts_cons, List.mem_append, ih]
    by_cases h : remaining_hours f t now temp hum ≤ 6
    · rw [if_pos h]
      constructor
      · rintro (h0 | ⟨u, hu, h6, rfl⟩)
        · rw [List.mem_singleton] at h0
          exact ⟨t, List.mem_cons_self _ _, h, h0⟩
        · exact ⟨u, List.mem_cons_of_mem _ hu, h6, rfl⟩
      · rintro ⟨u, hu, h6, rfl⟩
        rcases List.mem_cons.mp hu with rfl | hu
        · exact Or.inl (List.mem_singleton.mpr rfl)
        · exact Or.inr ⟨u, hu, h6, rfl⟩
    · rw [if_neg h]
      constructor
      · rintro (h0 | ⟨u, hu, h6, rfl⟩)
        · simp at h0
        · exact ⟨u, List.mem_cons_of_mem _ hu, h6, rfl⟩
      · rintro ⟨u, hu, h6, rfl⟩
        rcases List.mem_cons.mp hu with rfl | hu
        · exact absurd h6 h
        · exact Or.inr ⟨u, hu, h6, rfl⟩

/-- **C8.**  A tracked `(itemType, timestamp)` pair produces the
near-spoilage alert (with its environment-adjusted remaining hours) in the
scan over the committed snapshot if and only if that remaining value is at
most `6.0` — the threshold is inclusive (`rsl <= 6` in the code), so a
remaining value of exactly `6.0` triggers the alert and `6.01` does not. -/
theorem scan_rsl_threshold (inv : Inventory) (now : ℤ) (temp hum : ℝ) (f : String)
    (ts : List ℤ) (t : ℤ) (hf : lookupKey inv f = some ts) (ht : t ∈ ts) :
    (⟨f, t, remaining_hours f t now temp hum⟩ : RslAlert) ∈ scan_rsl inv now temp hum
      ↔ remaining_hours f t now temp hum ≤ 6 := by
  unfold scan_rsl
  rw [List.mem_flatMap]
  constructor
  · rintro ⟨p, hp, hmem⟩
    rw [mem_entry_rsl_alerts] at hmem
    obtain ⟨u, hu, h6, heq⟩ := hmem
    rw [RslAlert.mk.injEq] at heq
    obtain ⟨h1, h2, h3⟩ := heq
    rw [h3]
    exact h6
  · intro h6
    refine ⟨(f, ts), lookupKey_mem hf, ?_⟩
    rw [mem_entry_rsl_alerts]
    exact ⟨t, ht, h6, rfl⟩

/-- **C8, witness.**  Boundary instances: with adjusted life 60h, a banana
placed 54h ago has exactly `6.0` remaining and is alerted; one placed
53.99h ago has `6.01` remaining and is not. -/
theorem scan_rsl_threshold_inst :
    ((⟨"banana", 5600, remaining_hours "banana" 5600 200000 4.0 85.0⟩ : RslAlert)
        ∈ scan_rsl [("banana", [5600])] 200000 4.0 85.0)
    ∧ ¬ ((⟨"banana", 5636, remaining_hours "banana" 5636 200000 4.0 85.0⟩ : RslAlert)
        ∈ scan_rsl [("banana", [5636])] 200000 4.0 85.0) := by
  have h60 : remaining_hours "banana" 5600 200000 4.0 85.0 = 6 := by
    unfold remaining_hours
    rw [base_life_banana, respiration_banana, environment_factor_q10_ref]
    push_cast
    norm_num [max_def]
  have h601 : remaining_hours "banana" 5636 200000 4.0 85.0 = 6.01 := by
    unfold remaining_hours
    rw [base_life_banana, respiration_banana, environment_factor_q10_ref]
    push_cast
    norm_num [max_def]
  constructor
  · exact (scan_rsl_threshold [("banana", [5600])] 200000 4.0 85.0 "banana" [5600] 5600
      (by simp [lookupKey]) (List.mem_singleton.mpr rfl)).mpr (by rw [h60])
  · intro hmem
    have h6 := (scan_rsl_threshold [("banana", [5636])] 200000 4.0 85.0 "banana" [5636] 5636
      (by simp [lookupKey]) (List.mem_singleton.mpr rfl)).mp hmem
    rw [h601] at h6
    norm_num at h6

end FruitMonitor
